import Mathlib

set_option autoImplicit false

/-!
A shallow embedding of the callback/hook registry implemented in
`src/mrbaviirc/common/hooks.py` (`CallbackEntry`, `Hooks`, `Signal`).

Modelling decisions, stated once here:

* Callback behaviour is deep-embedded as an `Act`: a callback either simply
  returns a value, raises an exception, re-enters the registry with a nested
  `emit`, or registers a fresh callback.  Payload arguments (`*args`) are
  opaque to the registry and are modelled as a single `Nat`.
* Object identity (Python `id`) of a `CallbackEntry` is the `eid` field;
  `list.remove(entry)` compares by identity, modelled as comparison on `eid`.
* A weakly bound callback (`__self__`/`__func__` pair) holds weak references
  to a receiver, modelled by the single referent id `obj`; the registry state
  carries the list `dead` of collected referents.  `CallbackEntry.callback`
  returns `None` exactly when the entry is disabled or its referent is dead;
  this is the Boolean `resolves`.
* Collection of a referent fires the CPython weakref callbacks: each affected
  entry's `_cleanup` runs `self.unregister()`, removing the entry from its
  channel list.  Since `Hooks.register` stores every entry exactly once, in
  the list keyed by its own hook name, the aggregate effect on the registry is
  to filter the bound entries out of every channel list; `Hooks.objDie` below
  performs that transition and records the referent as dead.
* Dispatch traces record the `eid` of each callback actually invoked, in
  invocation order.
-/

namespace HooksPy

/-- Deep-embedded behaviour of a registered callback when it is invoked:
return normally, raise an exception, make a nested `emit` on a channel, or
register a fresh (strong, pure) callback on a channel. -/
inductive Act where
  | ret : Act
  | raiseErr : Act
  | emitTo (ch : String) : Act
  | regNew (ch : String) (eid : Nat) (rv : Nat) : Act
  deriving DecidableEq, Repr

/-- Embeds `CallbackEntry` from hooks.py: `eid` is the Python object identity,
`hook` is the `_data` field (the channel the entry was registered under),
`weak`/`obj` model `_weak` and the weakly referenced receiver, `enabled` is
`_enabled`.  `act` and `retVal` describe the wrapped callback's behaviour and
return value when invoked. -/
structure CallbackEntry where
  eid : Nat
  hook : String
  weak : Bool
  obj : Nat
  enabled : Bool
  act : Act
  retVal : Nat
  deriving DecidableEq, Repr

/-- Embeds the `CallbackEntry.callback` property: the property returns a
callable (rather than `None`) iff the entry is enabled and, for a weak entry,
the weak references still resolve, i.e. the referent has not been collected. -/
def resolves (dead : List Nat) (e : CallbackEntry) : Bool :=
  e.enabled && (!e.weak || !(dead.contains e.obj))

/-- Embeds the `Hooks` registry state: `_hooks` (mapping of hook name to the
ordered list of entries, as an insertion-ordered association list), `_queue`
(the deferred queue of `(hook, args)` pairs).  `dead` is the set of collected
weak referents (part of the surrounding runtime, carried here explicitly). -/
structure Hooks where
  hooks : List (String × List CallbackEntry)
  queue : List (String × Nat)
  dead : List Nat
  deriving DecidableEq, Repr

/-- `self._hooks.get(hook, [])`: the entry list of a channel, `[]` when the
key is absent. -/
def lookupHook (m : List (String × List CallbackEntry)) (h : String) :
    List CallbackEntry :=
  match m with
  | [] => []
  | (k, l) :: rest => if k = h then l else lookupHook rest h

/-- `self._hooks.setdefault(hook, []); queue.append(entry)`: append an entry
to a channel's list, creating the key when absent. -/
def appendEntry (m : List (String × List CallbackEntry)) (h : String)
    (e : CallbackEntry) : List (String × List CallbackEntry) :=
  match m with
  | [] => [(h, [e])]
  | (k, l) :: rest =>
    if k = h then (k, l ++ [e]) :: rest else (k, l) :: appendEntry rest h e

/-- Replace the entry list of a channel in place, a no-op when the key is
absent (`self._hooks.get(hook, None)` returning `None`). -/
def updateHook (m : List (String × List CallbackEntry)) (h : String)
    (f : List CallbackEntry → List CallbackEntry) :
    List (String × List CallbackEntry) :=
  match m with
  | [] => []
  | (k, l) :: rest =>
    if k = h then (k, f l) :: rest else (k, l) :: updateHook rest h f

/-- `queue.remove(entry)` with `ValueError` swallowed: remove the first entry
with the given identity, unchanged when no entry matches. -/
def removeFirst (l : List CallbackEntry) (i : Nat) : List CallbackEntry :=
  match l with
  | [] => []
  | x :: xs => if x.eid = i then xs else x :: removeFirst xs i

/-- Embeds `Hooks.register`: a fresh entry is created with `_data = hook` and
appended to the channel's list under the lock. -/
def Hooks.register (s : Hooks) (hook : String) (e : CallbackEntry) : Hooks :=
  { s with hooks := appendEntry s.hooks hook { e with hook := hook } }

/-- Registers a list of callbacks on one hook, in order. -/
def Hooks.registerMany (s : Hooks) (hook : String)
    (es : List CallbackEntry) : Hooks :=
  es.foldl (fun t e => t.register hook e) s

/-- Embeds `Hooks.unregister`: look up the entry's channel by its `_data`,
remove the entry from that list if present; absent key or absent entry is a
silent no-op. -/
def Hooks.unregister (s : Hooks) (e : CallbackEntry) : Hooks :=
  { s with hooks := updateHook s.hooks e.hook (fun l => removeFirst l e.eid) }

/-- Collection of the weak referent `o`: resolution of entries bound to `o`
now fails, and the weakref callbacks fire each such entry's `_cleanup`, which
unregisters it from its channel list (see the header comment). -/
def Hooks.objDie (s : Hooks) (o : Nat) : Hooks :=
  { s with
    dead := o :: s.dead
    hooks := s.hooks.map (fun p => (p.1, p.2.filter (fun e => !(e.weak && e.obj == o)))) }

/-- Embeds the invocation loop of `Hooks.process` run to exhaustion with pure
callbacks: for each entry of the snapshot whose `callback` property is not
`None`, the callback is invoked; the trace lists the invoked entries' ids in
order. -/
def processTrace (dead : List Nat) : List CallbackEntry → List Nat
  | [] => []
  | e :: rest =>
    if resolves dead e then e.eid :: processTrace dead rest
    else processTrace dead rest

/-- Embeds `Hooks.call`: snapshot the channel's list under the lock, then
iterate `process` to exhaustion, discarding results; the returned trace lists
the invoked callbacks.  Pure callbacks leave the registry state unchanged. -/
def Hooks.call (s : Hooks) (hook : String) : List Nat :=
  processTrace s.dead (lookupHook s.hooks hook)

/-- Embeds partial consumption of the generator returned by `Hooks.process`:
the consumer requests at most `n` results, so the generator body runs only up
to its `n`-th `yield`; entries after the `n`-th yielding entry are never
examined or invoked. -/
def processUpTo (dead : List Nat) : List CallbackEntry → Nat → List Nat
  | _, 0 => []
  | [], _ + 1 => []
  | e :: rest, n + 1 =>
    if resolves dead e then e.eid :: processUpTo dead rest n
    else processUpTo dead rest (n + 1)

/-- State-level wrapper for a partial consumption of `Hooks.process`: each
call to `process` takes a fresh snapshot of the current state; the generator
only reads the snapshot, so with pure callbacks the state is returned
unchanged. -/
def Hooks.processSome (s : Hooks) (hook : String) (n : Nat) :
    List Nat × Hooks :=
  (processUpTo s.dead (lookupHook s.hooks hook) n, s)

/-- Embeds the invocation loop of `Hooks.process`/`Hooks.call` when a
callback may raise: a raising callback is invoked (it appears in the trace)
and the exception propagates through the generator to the dispatch caller, so
the loop stops and the remaining snapshot entries are never invoked.  The
Boolean records whether an exception escaped. -/
def processRaise (dead : List Nat) : List CallbackEntry → List Nat × Bool
  | [] => ([], false)
  | e :: rest =>
    if resolves dead e then
      match e.act with
      | Act.raiseErr => ([e.eid], true)
      | _ => (e.eid :: (processRaise dead rest).1, (processRaise dead rest).2)
    else processRaise dead rest

/-- State-level wrapper: `Hooks.call` with a possibly raising callback. -/
def Hooks.callRaise (s : Hooks) (hook : String) : List Nat × Bool :=
  processRaise s.dead (lookupHook s.hooks hook)

/-- The state effect of one invoked callback: a `regNew` callback re-enters
`Hooks.register` (the lock is reentrant); other behaviours touch no registry
state. -/
def applyAct (s : Hooks) : Act → Hooks
  | Act.regNew ch i rv =>
    s.register ch
      { eid := i, hook := ch, weak := false, obj := 0, enabled := true,
        act := Act.ret, retVal := rv }
  | _ => s

/-- Embeds the invocation loop of `Hooks.process` over the frozen snapshot
tuple when callbacks may register: the loop iterates the snapshot taken
before any invocation, while each invoked callback may mutate the live
registry through `register`.  Returns the trace and the final state. -/
def runSnapshot : List CallbackEntry → Hooks → List Nat × Hooks
  | [], s => ([], s)
  | e :: rest, s =>
    if resolves s.dead e then
      (e.eid :: (runSnapshot rest (applyAct s e.act)).1,
        (runSnapshot rest (applyAct s e.act)).2)
    else runSnapshot rest s

/-- Embeds `Hooks.call` with registering callbacks: under the lock the
channel list is cloned into a tuple, the lock is released, and the snapshot
is iterated. -/
def Hooks.callEff (s : Hooks) (hook : String) : List Nat × Hooks :=
  runSnapshot (lookupHook s.hooks hook) s

/-- Embeds `Hooks.queue`: append `(hook, args)` to the deferred queue. -/
def Hooks.enqueue (s : Hooks) (hook : String) (a : Nat) : Hooks :=
  { s with queue := s.queue ++ [(hook, a)] }

/-- Embeds the loop of `Hooks.flush` for callbacks that may raise but do not
touch the deferred queue: while the queue is non-empty, pop the head and
`call` it; a raising callback propagates out of `flush`, leaving the already
popped event gone and the later events still queued.  Returns the combined
trace, whether an exception escaped, and the remaining queue. -/
def flushAux (dead : List Nat) (hk : List (String × List CallbackEntry)) :
    List (String × Nat) → List Nat × Bool × List (String × Nat)
  | [] => ([], false, [])
  | (h, _a) :: rest =>
    if (processRaise dead (lookupHook hk h)).2 then
      ((processRaise dead (lookupHook hk h)).1, true, rest)
    else
      ((processRaise dead (lookupHook hk h)).1 ++ (flushAux dead hk rest).1,
        (flushAux dead hk rest).2.1, (flushAux dead hk rest).2.2)

/-- Embeds `Hooks.flush` at the state level. -/
def Hooks.flush (s : Hooks) : List Nat × Bool × Hooks :=
  ((flushAux s.dead s.hooks s.queue).1,
    (flushAux s.dead s.hooks s.queue).2.1,
    { s with queue := (flushAux s.dead s.hooks s.queue).2.2 })

/-- Embeds the `CallbackEntry.enabled` setter: the flag of the entry with
identity `i` is flipped in place; the entry keeps its position in its channel
list and no other registry state is touched. -/
def Hooks.setEnabled (s : Hooks) (i : Nat) (b : Bool) : Hooks :=
  { s with
    hooks := s.hooks.map (fun p =>
      (p.1, p.2.map (fun e => if e.eid = i then { e with enabled := b } else e))) }

/-- Modelled from the spec: `accumulate(channel, reducer, *args)` is absent
from src/ (the docstring of `Hooks.process` says `process` replaced the
original accumulate method).  Per spec section 4.3 it iterates the snapshot
like `call` and, for every entry actually invoked, passes the entry's return
value to the reducer; entries that fail to resolve are skipped and never
passed to the reducer. -/
def accumulate {α : Type} (dead : List Nat) (red : α → Nat → α) (acc : α) :
    List CallbackEntry → α
  | [] => acc
  | e :: rest =>
    if resolves dead e then accumulate dead red (red acc e.retVal) rest
    else accumulate dead red acc rest

/-- State-level wrapper for the spec-modelled `accumulate` on a channel. -/
def Hooks.accumulate {α : Type} (s : Hooks) (hook : String)
    (red : α → Nat → α) (init : α) : α :=
  HooksPy.accumulate s.dead red init (lookupHook s.hooks hook)

/-- Modelled from the spec: one drained event of `emit` (absent from src/).
Invokes each entry of the popped channel's current list that resolves; a
callback whose behaviour is a nested `emit` only enqueues its channel (spec
section 4.4).  Returns the trace and the channels enqueued by the callbacks,
in order. -/
def emitChannel (dead : List Nat) : List CallbackEntry → List Nat × List String
  | [] => ([], [])
  | e :: rest =>
    if resolves dead e then
      match e.act with
      | Act.emitTo ch =>
        (e.eid :: (emitChannel dead rest).1, ch :: (emitChannel dead rest).2)
      | _ => (e.eid :: (emitChannel dead rest).1, (emitChannel dead rest).2)
    else emitChannel dead rest

/-- Modelled from the spec: the draining loop of the outermost `emit` (spec
section 4.4).  While `pending_emits` is non-empty, pop the head channel, look
up its current entries, and invoke each live entry; channels enqueued by
nested `emit` calls are appended to the tail of the pending FIFO.  `fuel`
bounds the number of drained events. -/
def drain (dead : List Nat) (hk : List (String × List CallbackEntry)) :
    Nat → List String → List Nat
  | 0, _ => []
  | _ + 1, [] => []
  | fuel + 1, ch :: q =>
    (emitChannel dead (lookupHook hk ch)).1
      ++ drain dead hk fuel (q ++ (emitChannel dead (lookupHook hk ch)).2)

/-- Modelled from the spec: `emit(channel, *args)` at reentrancy depth 0
enqueues the channel on the empty `pending_emits` queue and drains it. -/
def emit (dead : List Nat) (hk : List (String × List CallbackEntry))
    (ch : String) (fuel : Nat) : List Nat :=
  drain dead hk fuel [ch]

/-- Embeds the `Signal` registry state: `_entries` and `_queue`. -/
structure Signal where
  entries : List CallbackEntry
  queue : List Nat
  deriving DecidableEq, Repr

/-- Embeds `Signal.unregister`: remove the entry from `_entries` if present,
`ValueError` swallowed. -/
def Signal.unregister (sg : Signal) (e : CallbackEntry) : Signal :=
  { sg with entries := removeFirst sg.entries e.eid }

/-! ### Basic lemmas about the embedded operations -/

theorem resolves_setHook (dead : List Nat) (e : CallbackEntry) (h : String) :
    resolves dead { e with hook := h } = resolves dead e := rfl

theorem lookupHook_appendEntry_self (m : List (String × List CallbackEntry))
    (h : String) (e : CallbackEntry) :
    lookupHook (appendEntry m h e) h = lookupHook m h ++ [e] := by
  induction m with
  | nil => simp [appendEntry, lookupHook]
  | cons p rest ih =>
    obtain ⟨k, l⟩ := p
    by_cases hk : k = h
    · simp [appendEntry, lookupHook, hk]
    · simp [appendEntry, lookupHook, hk, ih]

theorem lookupHook_appendEntry_ne (m : List (String × List CallbackEntry))
    (h h' : String) (e : CallbackEntry) (hne : h' ≠ h) :
    lookupHook (appendEntry m h e) h' = lookupHook m h' := by
  induction m with
  | nil => simp [appendEntry, lookupHook, Ne.symm hne]
  | cons p rest ih =>
    obtain ⟨k, l⟩ := p
    by_cases hk : k = h
    · subst hk
      simp [appendEntry, lookupHook, Ne.symm hne]
    · simp [appendEntry, lookupHook, hk, ih]

theorem processTrace_eq_filter (dead : List Nat) (l : List CallbackEntry) :
    processTrace dead l
      = (l.filter (fun e => resolves dead e)).map CallbackEntry.eid := by
  induction l with
  | nil => rfl
  | cons e rest ih =>
    by_cases hr : resolves dead e
    · simp [processTrace, List.filter_cons, hr, ih]
    · simp [processTrace, List.filter_cons, hr, ih]

theorem processTrace_of_all_resolve (dead : List Nat) (l : List CallbackEntry)
    (h : ∀ e ∈ l, resolves dead e = true) :
    processTrace dead l = l.map CallbackEntry.eid := by
  induction l with
  | nil => rfl
  | cons e rest ih =>
    have he := h e (List.mem_cons_self e rest)
    simp only [processTrace, he, if_pos, List.map_cons]
    rw [ih (fun x hx => h x (List.mem_cons_of_mem e hx))]

theorem processUpTo_eq_take (dead : List Nat) (l : List CallbackEntry)
    (n : Nat) :
    processUpTo dead l n = (processTrace dead l).take n := by
  induction l generalizing n with
  | nil => cases n <;> rfl
  | cons e rest ih =>
    cases n with
    | zero =>
      by_cases hr : resolves dead e <;> simp [processUpTo]
    | succ m =>
      by_cases hr : resolves dead e
      · simp [processUpTo, processTrace, hr, ih]
      · simp [processUpTo, processTrace, hr, ih]

theorem register_dead (s : Hooks) (h : String) (e : CallbackEntry) :
    (s.register h e).dead = s.dead := rfl

theorem registerMany_dead (s : Hooks) (h : String) (es : List CallbackEntry) :
    (s.registerMany h es).dead = s.dead := by
  induction es generalizing s with
  | nil => rfl
  | cons e rest ih => exact ih (s.register h e)

theorem registerMany_lookup (s : Hooks) (h : String) (es : List CallbackEntry) :
    lookupHook ((s.registerMany h es).hooks) h
      = lookupHook s.hooks h ++ es.map (fun e => { e with hook := h }) := by
  induction es generalizing s with
  | nil => simp [Hooks.registerMany]
  | cons e rest ih =>
    have step : (s.registerMany h (e :: rest)) = (s.register h e).registerMany h rest := rfl
    rw [step, ih]
    rw [show ((s.register h e).hooks) = appendEntry s.hooks h { e with hook := h } from rfl]
    rw [lookupHook_appendEntry_self]
    simp

/-- C1: for every hook name and every sequence of N callbacks registered on
that hook in order (all live and enabled, N ≥ 0, the channel previously
empty), `call` invokes the callbacks in exactly registration order, which
equals the insertion order of the channel's entry list at the moment of
snapshot. -/
theorem hooks_call_invocation_order (s : Hooks) (h : String)
    (es : List CallbackEntry)
    (h0 : lookupHook s.hooks h = [])
    (h1 : ∀ e ∈ es, resolves s.dead e = true) :
    Hooks.call (s.registerMany h es) h = es.map CallbackEntry.eid ∧
    Hooks.call (s.registerMany h es) h
      = (lookupHook ((s.registerMany h es).hooks) h).map CallbackEntry.eid := by
  have hlook := registerMany_lookup s h es
  rw [h0, List.nil_append] at hlook
  have hdead := registerMany_dead s h es
  have hres : ∀ e ∈ (es.map (fun e => { e with hook := h })),
      resolves (s.registerMany h es).dead e = true := by
    intro e he
    rw [List.mem_map] at he
    obtain ⟨x, hx, rfl⟩ := he
    rw [hdead, resolves_setHook]
    exact h1 x hx
  have : Hooks.call (s.registerMany h es) h
      = (es.map (fun e => { e with hook := h })).map CallbackEntry.eid := by
    rw [Hooks.call, hlook, processTrace_of_all_resolve _ _ hres]
  constructor
  · rw [this, List.map_map]
    rfl
  · rw [this, hlook]

/-- Witness for C1 at a concrete input: two live strong callbacks registered
on an empty registry are invoked in registration order. -/
theorem hooks_call_invocation_order_witness :
    (lookupHook (Hooks.mk [] [] []).hooks ("alpha") = [] ∧
      (∀ e ∈ [CallbackEntry.mk 1 ("x") false 0 true Act.ret 10,
              CallbackEntry.mk 2 ("x") false 0 true Act.ret 20],
        resolves (Hooks.mk [] [] []).dead e = true)) ∧
    Hooks.call ((Hooks.mk [] [] []).registerMany ("alpha")
        [CallbackEntry.mk 1 ("x") false 0 true Act.ret 10,
         CallbackEntry.mk 2 ("x") false 0 true Act.ret 20]) ("alpha")
      = [1, 2] := by
  refine ⟨⟨rfl, by decide⟩, ?_⟩
  have := hooks_call_invocation_order (Hooks.mk [] [] []) ("alpha")
    [CallbackEntry.mk 1 ("x") false 0 true Act.ret 10,
     CallbackEntry.mk 2 ("x") false 0 true Act.ret 20] rfl (by decide)
  exact this.1

/-! ### Idempotent unregister (C7) -/

theorem removeFirst_of_absent (l : List CallbackEntry) (i : Nat)
    (h : ∀ x ∈ l, x.eid ≠ i) : removeFirst l i = l := by
  induction l with
  | nil => rfl
  | cons x xs ih =>
    have hx := h x (List.mem_cons_self x xs)
    simp only [removeFirst, hx, if_false, if_neg hx]
    rw [ih (fun y hy => h y (List.mem_cons_of_mem x hy))]

theorem updateHook_removeFirst_of_absent (m : List (String × List CallbackEntry))
    (h : String) (i : Nat)
    (hab : ∀ e ∈ lookupHook m h, e.eid ≠ i) :
    updateHook m h (fun l => removeFirst l i) = m := by
  induction m with
  | nil => rfl
  | cons p rest ih =>
    obtain ⟨k, l⟩ := p
    by_cases hk : k = h
    · have hl : lookupHook ((k, l) :: rest) h = l := by simp [lookupHook, hk]
      rw [hl] at hab
      simp [updateHook, hk, removeFirst_of_absent l i hab]
    · have hl : lookupHook ((k, l) :: rest) h = lookupHook rest h := by
        simp [lookupHook, hk]
      rw [hl] at hab
      simp [updateHook, hk, ih hab]

/-- C7: `unregister` is idempotent: on a handle whose entry is absent from
its channel (already removed, or never added), both `Hooks.unregister` and
`Signal.unregister` return without raising and leave the entire registry
state (all channels' entry lists, the deferred queue) unchanged. -/
theorem unregister_idempotent_noop (s : Hooks) (sg : Signal) (e : CallbackEntry)
    (h1 : ∀ e' ∈ lookupHook s.hooks e.hook, e'.eid ≠ e.eid)
    (h2 : ∀ e' ∈ sg.entries, e'.eid ≠ e.eid) :
    s.unregister e = s ∧ sg.unregister e = sg := by
  constructor
  · rw [Hooks.unregister, updateHook_removeFirst_of_absent _ _ _ h1]
  · rw [Signal.unregister, removeFirst_of_absent _ _ h2]

/-- Witness for C7 at a concrete input: unregistering a handle never added
leaves a populated registry and signal unchanged. -/
theorem unregister_idempotent_noop_witness :
    ((∀ e' ∈ lookupHook
        (Hooks.mk [(("a"), [CallbackEntry.mk 1 ("a") false 0 true Act.ret 0])]
          [(("a"), 7)] [3]).hooks
        (CallbackEntry.mk 2 ("a") false 0 true Act.ret 0).hook,
        e'.eid ≠ (CallbackEntry.mk 2 ("a") false 0 true Act.ret 0).eid) ∧
      (∀ e' ∈ (Signal.mk [CallbackEntry.mk 1 ("a") false 0 true Act.ret 0] [5]).entries,
        e'.eid ≠ (CallbackEntry.mk 2 ("a") false 0 true Act.ret 0).eid)) ∧
    ((Hooks.mk [(("a"), [CallbackEntry.mk 1 ("a") false 0 true Act.ret 0])]
        [(("a"), 7)] [3]).unregister (CallbackEntry.mk 2 ("a") false 0 true Act.ret 0)
      = Hooks.mk [(("a"), [CallbackEntry.mk 1 ("a") false 0 true Act.ret 0])]
          [(("a"), 7)] [3] ∧
     (Signal.mk [CallbackEntry.mk 1 ("a") false 0 true Act.ret 0] [5]).unregister
        (CallbackEntry.mk 2 ("a") false 0 true Act.ret 0)
      = Signal.mk [CallbackEntry.mk 1 ("a") false 0 true Act.ret 0] [5]) := by
  refine ⟨⟨by decide, by decide⟩, ?_⟩
  exact unregister_idempotent_noop _ _ _ (by decide) (by decide)

/-! ### Accumulate (C8, modelled from the spec) -/

theorem accumulate_eq_foldl {α : Type} (dead : List Nat) (red : α → Nat → α)
    (acc : α) (l : List CallbackEntry) :
    accumulate dead red acc l
      = List.foldl red acc
          ((l.filter (fun e => resolves dead e)).map CallbackEntry.retVal) := by
  induction l generalizing acc with
  | nil => rfl
  | cons e rest ih =>
    by_cases hr : resolves dead e
    · simp [accumulate, List.filter_cons, hr, ih]
    · simp [accumulate, List.filter_cons, hr, ih]

/-- C8 (modelled from the spec, `accumulate` being absent from src/): the
reducer receives, in order, exactly the return values of the entries that are
actually invoked (resolution succeeded, not disabled); entries failing to
resolve are skipped and never passed to the reducer; and the invoked entries
are exactly those a `call` on the channel invokes. -/
theorem accumulate_reducer_exactly_once {α : Type} (s : Hooks) (h : String)
    (red : α → Nat → α) (init : α) :
    s.accumulate h red init
      = List.foldl red init
          (((lookupHook s.hooks h).filter
              (fun e => resolves s.dead e)).map CallbackEntry.retVal) ∧
    ((lookupHook s.hooks h).filter
        (fun e => resolves s.dead e)).map CallbackEntry.eid
      = s.call h := by
  constructor
  · exact accumulate_eq_foldl s.dead red init (lookupHook s.hooks h)
  · rw [Hooks.call, processTrace_eq_filter]

/-! ### Stale weak bindings (C2) -/

theorem mem_processTrace (dead : List Nat) (l : List CallbackEntry) (i : Nat)
    (h : i ∈ processTrace dead l) :
    ∃ e ∈ l, e.eid = i ∧ resolves dead e = true := by
  rw [processTrace_eq_filter] at h
  obtain ⟨e, he, hei⟩ := List.mem_map.mp h
  have := List.mem_filter.mp he
  exact ⟨e, this.1, hei, this.2⟩

theorem lookupHook_mapFilter (m : List (String × List CallbackEntry))
    (g : CallbackEntry → Bool) (h : String) :
    lookupHook (m.map (fun p => (p.1, p.2.filter g))) h
      = (lookupHook m h).filter g := by
  induction m with
  | nil => rfl
  | cons p rest ih =>
    obtain ⟨k, l⟩ := p
    by_cases hk : k = h <;> simp [lookupHook, hk, ih]

theorem lookupHook_mapMap (m : List (String × List CallbackEntry))
    (g : CallbackEntry → CallbackEntry) (h : String) :
    lookupHook (m.map (fun p => (p.1, p.2.map g))) h
      = (lookupHook m h).map g := by
  induction m with
  | nil => rfl
  | cons p rest ih =>
    obtain ⟨k, l⟩ := p
    by_cases hk : k = h <;> simp [lookupHook, hk, ih]

/-- No entry bound to the collected referent `o` occurs anywhere in the
channel map. -/
def noBound (m : List (String × List CallbackEntry)) (o : Nat) : Prop :=
  ∀ h : String, ∀ e ∈ lookupHook m h, ¬(e.weak = true ∧ e.obj = o)

theorem objDie_noBound (s : Hooks) (o : Nat) : noBound ((s.objDie o).hooks) o := by
  intro h e he hbound
  rw [show (s.objDie o).hooks
        = s.hooks.map (fun p => (p.1, p.2.filter (fun e => !(e.weak && e.obj == o))))
      from rfl, lookupHook_mapFilter] at he
  have := (List.mem_filter.mp he).2
  simp [hbound.1, hbound.2] at this

theorem appendEntry_noBound (m : List (String × List CallbackEntry)) (o : Nat)
    (h : String) (e : CallbackEntry) (hm : noBound m o) (he : e.weak = false) :
    noBound (appendEntry m h { e with hook := h }) o := by
  intro h' e' he' hbound
  by_cases hh : h' = h
  · subst hh
    rw [lookupHook_appendEntry_self] at he'
    rcases List.mem_append.mp he' with hin | hin
    · exact hm h' e' hin hbound
    · rw [List.mem_singleton] at hin
      subst hin
      simp [he] at hbound
  · rw [lookupHook_appendEntry_ne m h h' _ hh] at he'
    exact hm h' e' he' hbound

theorem runSnapshot_noBound (l : List CallbackEntry) (s : Hooks) (o : Nat)
    (hs : noBound s.hooks o) : noBound ((runSnapshot l s).2.hooks) o := by
  induction l generalizing s with
  | nil => exact hs
  | cons e rest ih =>
    by_cases hr : resolves s.dead e
    · have hstep : noBound ((applyAct s e.act).hooks) o := by
        cases ha : e.act with
        | regNew ch i rv => exact appendEntry_noBound s.hooks o ch _ hs rfl
        | ret => exact hs
        | raiseErr => exact hs
        | emitTo ch => exact hs
      have := ih (applyAct s e.act) hstep
      simpa [runSnapshot, hr] using this
    · have := ih s hs
      simpa [runSnapshot, hr] using this

theorem resolves_objDie_bound (s : Hooks) (o : Nat) (e : CallbackEntry)
    (hw : e.weak = true) (ho : e.obj = o) :
    resolves ((s.objDie o).dead) e = false := by
  rw [show (s.objDie o).dead = o :: s.dead from rfl]
  simp [resolves, hw, ho]

/-- C2: a weak binding fails to resolve only once its referent has been
collected, and the collection of the referent `o` fires each bound entry's
`_cleanup`, which self-unregisters the entry.  Consequently a dispatch after
the collection skips the stale entry even when it still sits in a snapshot
taken before the collection (first conjunct), and after a full dispatch
(`callEff`, whose callbacks may themselves register) no entry bound to `o`
remains in any channel's entry list (second conjunct). -/
theorem stale_entry_skipped_and_absent (s : Hooks) (o : Nat) (h h' : String)
    (e : CallbackEntry)
    (hmem : e ∈ lookupHook s.hooks h)
    (hw : e.weak = true) (ho : e.obj = o)
    (hnodup : ((lookupHook s.hooks h).map CallbackEntry.eid).Nodup) :
    e.eid ∉ processTrace ((s.objDie o).dead) (lookupHook s.hooks h) ∧
    (∀ e' ∈ lookupHook ((((s.objDie o).callEff h).2).hooks) h',
      ¬(e'.weak = true ∧ e'.obj = o)) := by
  constructor
  · intro htr
    obtain ⟨e', he', heid, hres⟩ := mem_processTrace _ _ _ htr
    have : e' = e :=
      List.inj_on_of_nodup_map hnodup he' hmem heid
    subst this
    rw [resolves_objDie_bound s o e' hw ho] at hres
    exact Bool.false_ne_true hres
  · exact runSnapshot_noBound _ _ o (objDie_noBound s o) h'

/-- Witness for C2 at a concrete input: a weak entry bound to referent 9 in a
two-entry channel is skipped by a post-collection dispatch over the old
snapshot and is gone from the channel afterwards. -/
theorem stale_entry_skipped_and_absent_witness :
    ((CallbackEntry.mk 1 ("a") true 9 true Act.ret 0 ∈
        lookupHook [(("a"), [CallbackEntry.mk 1 ("a") true 9 true Act.ret 0,
                             CallbackEntry.mk 2 ("a") false 0 true Act.ret 0])] ("a")) ∧
      ((lookupHook [(("a"), [CallbackEntry.mk 1 ("a") true 9 true Act.ret 0,
                             CallbackEntry.mk 2 ("a") false 0 true Act.ret 0])]
          ("a")).map CallbackEntry.eid).Nodup) ∧
    ((CallbackEntry.mk 1 ("a") true 9 true Act.ret 0).eid ∉
      processTrace (((Hooks.mk
          [(("a"), [CallbackEntry.mk 1 ("a") true 9 true Act.ret 0,
                    CallbackEntry.mk 2 ("a") false 0 true Act.ret 0])] [] []).objDie 9).dead)
        (lookupHook [(("a"), [CallbackEntry.mk 1 ("a") true 9 true Act.ret 0,
                              CallbackEntry.mk 2 ("a") false 0 true Act.ret 0])] ("a")) ∧
     (∀ e' ∈ lookupHook ((((Hooks.mk
          [(("a"), [CallbackEntry.mk 1 ("a") true 9 true Act.ret 0,
                    CallbackEntry.mk 2 ("a") false 0 true Act.ret 0])] [] []).objDie 9).callEff
            ("a")).2.hooks) ("a"),
        ¬(e'.weak = true ∧ e'.obj = 9))) := by
  refine ⟨⟨by decide, by decide⟩, ?_⟩
  exact stale_entry_skipped_and_absent
    (Hooks.mk [(("a"), [CallbackEntry.mk 1 ("a") true 9 true Act.ret 0,
                        CallbackEntry.mk 2 ("a") false 0 true Act.ret 0])] [] [])
    9 ("a") ("a") (CallbackEntry.mk 1 ("a") true 9 true Act.ret 0)
    (by decide) rfl rfl (by decide)

/-! ### Laziness and restartability of process (C5) -/

/-- C5: `process` is lazy and short-circuiting: consuming only `n` elements
of the generator invokes exactly the first `n` live subscribers (the prefix
of the full dispatch trace) and never invokes the remaining ones; the
dispatch leaves the registry unchanged, and a later fresh call to `process`
invokes the subscribers again starting from the first. -/
theorem process_lazy_restartable (s : Hooks) (h : String) (n m : Nat)
    (hn : n ≤ (Hooks.call s h).length) :
    (s.processSome h n).1 = (Hooks.call s h).take n ∧
    ((s.processSome h n).1).length = n ∧
    (s.processSome h n).2 = s ∧
    (((s.processSome h n).2).processSome h m).1 = (Hooks.call s h).take m := by
  have ha : (s.processSome h n).1 = (Hooks.call s h).take n :=
    processUpTo_eq_take s.dead (lookupHook s.hooks h) n
  refine ⟨ha, ?_, rfl, ?_⟩
  · rw [ha, List.length_take]
    exact Nat.min_eq_left hn
  · exact processUpTo_eq_take s.dead (lookupHook s.hooks h) m

/-- Witness for C5 at a concrete input: with three live subscribers,
consuming one element invokes only the first subscriber, and a later fresh
call beginning again invokes from the first. -/
theorem process_lazy_restartable_witness :
    (1 ≤ (Hooks.call (Hooks.mk
        [(("c"), [CallbackEntry.mk 1 ("c") false 0 true Act.ret 0,
                  CallbackEntry.mk 2 ("c") false 0 true Act.ret 0,
                  CallbackEntry.mk 3 ("c") false 0 true Act.ret 0])] [] []) ("c")).length) ∧
    ((Hooks.mk
        [(("c"), [CallbackEntry.mk 1 ("c") false 0 true Act.ret 0,
                  CallbackEntry.mk 2 ("c") false 0 true Act.ret 0,
                  CallbackEntry.mk 3 ("c") false 0 true Act.ret 0])] [] []).processSome
        ("c") 1).1 = [1] ∧
    (((Hooks.mk
        [(("c"), [CallbackEntry.mk 1 ("c") false 0 true Act.ret 0,
                  CallbackEntry.mk 2 ("c") false 0 true Act.ret 0,
                  CallbackEntry.mk 3 ("c") false 0 true Act.ret 0])] [] []).processSome
        ("c") 1).2.processSome ("c") 2).1 = [1, 2] := by
  have := process_lazy_restartable (Hooks.mk
      [(("c"), [CallbackEntry.mk 1 ("c") false 0 true Act.ret 0,
                CallbackEntry.mk 2 ("c") false 0 true Act.ret 0,
                CallbackEntry.mk 3 ("c") false 0 true Act.ret 0])] [] [])
      ("c") 1 2 (by decide)
  refine ⟨by decide, ?_, ?_⟩
  · rw [this.1]
    decide
  · rw [this.2.2.2]
    decide

/-! ### Disable / enable (C9) -/

theorem eid_toggle (i : Nat) (b : Bool) (e : CallbackEntry) :
    (if e.eid = i then { e with enabled := b } else e).eid = e.eid := by
  by_cases hh : e.eid = i <;> simp [hh]

theorem map_eid_toggle (i : Nat) (b : Bool) (l : List CallbackEntry) :
    ((l.map (fun e => if e.eid = i then { e with enabled := b } else e)).map
        CallbackEntry.eid)
      = l.map CallbackEntry.eid := by
  induction l with
  | nil => rfl
  | cons e rest ih => simp [eid_toggle, ih]

theorem resolves_mk_false (dead : List Nat) (a : Nat) (hk : String) (w : Bool)
    (ob : Nat) (ac : Act) (rv : Nat) :
    resolves dead (CallbackEntry.mk a hk w ob false ac rv) = false := rfl

theorem processTrace_toggle_off (dead : List Nat) (i : Nat)
    (l : List CallbackEntry) :
    processTrace dead
        (l.map (fun e => if e.eid = i then { e with enabled := false } else e))
      = (processTrace dead l).filter (fun j => j != i) := by
  induction l with
  | nil => rfl
  | cons e rest ih =>
    by_cases hi : e.eid = i
    · by_cases hr : resolves dead e
      · simp [processTrace, hi, hr, ih, List.filter_cons, resolves_mk_false]
      · simp [processTrace, hi, hr, ih, resolves_mk_false]
    · by_cases hr : resolves dead e
      · simp [processTrace, hi, hr, ih, List.filter_cons]
      · simp [processTrace, hi, hr, ih]

theorem toggle_restore (i : Nat) (l : List CallbackEntry)
    (hl : ∀ e ∈ l, e.eid = i → e.enabled = true) :
    ((l.map (fun e => if e.eid = i then { e with enabled := false } else e)).map
        (fun e => if e.eid = i then { e with enabled := true } else e))
      = l := by
  induction l with
  | nil => rfl
  | cons e rest ih =>
    have hrest := ih (fun x hx => hl x (List.mem_cons_of_mem e hx))
    obtain ⟨a, hk, w, ob, en, ac, rv⟩ := e
    by_cases hi : a = i
    · have hb := hl _ (List.mem_cons_self _ rest) hi
      simp only [CallbackEntry.enabled] at hb
      subst hb
      simp [hi, hrest]
    · simp [hi, hrest]

theorem mapToggle_restore (i : Nat) (m : List (String × List CallbackEntry))
    (hm : ∀ p ∈ m, ∀ e ∈ p.2, e.eid = i → e.enabled = true) :
    ((m.map (fun p =>
        (p.1, p.2.map (fun e => if e.eid = i then { e with enabled := false } else e)))).map
      (fun p =>
        (p.1, p.2.map (fun e => if e.eid = i then { e with enabled := true } else e))))
      = m := by
  induction m with
  | nil => rfl
  | cons p rest ih =>
    obtain ⟨k, l⟩ := p
    have hl := hm (k, l) (List.mem_cons_self _ rest)
    have hrest := ih (fun q hq => hm q (List.mem_cons_of_mem _ hq))
    simp only [List.map_cons, List.cons.injEq]
    exact ⟨by simp [toggle_restore i l hl], hrest⟩

/-- C9: `disable` toggles delivery without removing: while the entry with
identity `i` is disabled, dispatch skips its callback; the entry remains in
its channel's sequence at its original position (same ids, same order), the
deferred queue and the rest of the registry are untouched, and re-enabling
the entry restores the registry to its original state, hence invocation in
the original registration order. -/
theorem disable_toggles_without_removing (s : Hooks) (i : Nat) (h : String)
    (hen : ∀ p ∈ s.hooks, ∀ e ∈ p.2, e.eid = i → e.enabled = true) :
    ((lookupHook ((s.setEnabled i false).hooks) h).map CallbackEntry.eid
        = (lookupHook s.hooks h).map CallbackEntry.eid) ∧
    (Hooks.call (s.setEnabled i false) h
        = (Hooks.call s h).filter (fun j => j != i)) ∧
    (i ∉ Hooks.call (s.setEnabled i false) h) ∧
    ((s.setEnabled i false).queue = s.queue ∧ (s.setEnabled i false).dead = s.dead) ∧
    ((s.setEnabled i false).setEnabled i true = s) := by
  have hlook := lookupHook_mapMap s.hooks
    (fun e => if e.eid = i then { e with enabled := false } else e) h
  have htrace : Hooks.call (s.setEnabled i false) h
      = (Hooks.call s h).filter (fun j => j != i) := by
    rw [Hooks.call, Hooks.call,
      show (s.setEnabled i false).dead = s.dead from rfl,
      show (s.setEnabled i false).hooks
        = s.hooks.map (fun p =>
            (p.1, p.2.map (fun e => if e.eid = i then { e with enabled := false } else e)))
        from rfl,
      hlook, processTrace_toggle_off]
  refine ⟨?_, htrace, ?_, ⟨rfl, rfl⟩, ?_⟩
  · rw [show (s.setEnabled i false).hooks
        = s.hooks.map (fun p =>
            (p.1, p.2.map (fun e => if e.eid = i then { e with enabled := false } else e)))
        from rfl, hlook, map_eid_toggle]
  · rw [htrace]
    intro hmem
    have := (List.mem_filter.mp hmem).2
    simp at this
  · show Hooks.mk
      ((s.hooks.map (fun p =>
          (p.1, p.2.map (fun e => if e.eid = i then { e with enabled := false } else e)))).map
        (fun p =>
          (p.1, p.2.map (fun e => if e.eid = i then { e with enabled := true } else e))))
      s.queue s.dead = s
    rw [mapToggle_restore i s.hooks hen]

/-- Witness for C9 at a concrete input: disabling entry 2 of a two-entry
channel skips it, keeps it in place, and re-enabling restores the state. -/
theorem disable_toggles_without_removing_witness :
    (∀ p ∈ (Hooks.mk
        [(("c"), [CallbackEntry.mk 1 ("c") false 0 true Act.ret 0,
                  CallbackEntry.mk 2 ("c") false 0 true Act.ret 0])] [] []).hooks,
      ∀ e ∈ p.2, e.eid = 2 → e.enabled = true) ∧
    (Hooks.call ((Hooks.mk
        [(("c"), [CallbackEntry.mk 1 ("c") false 0 true Act.ret 0,
                  CallbackEntry.mk 2 ("c") false 0 true Act.ret 0])] [] []).setEnabled 2 false)
        ("c") = [1] ∧
     ((Hooks.mk
        [(("c"), [CallbackEntry.mk 1 ("c") false 0 true Act.ret 0,
                  CallbackEntry.mk 2 ("c") false 0 true Act.ret 0])] [] []).setEnabled 2
            false).setEnabled 2 true
        = Hooks.mk
            [(("c"), [CallbackEntry.mk 1 ("c") false 0 true Act.ret 0,
                      CallbackEntry.mk 2 ("c") false 0 true Act.ret 0])] [] []) := by
  have := disable_toggles_without_removing (Hooks.mk
      [(("c"), [CallbackEntry.mk 1 ("c") false 0 true Act.ret 0,
                CallbackEntry.mk 2 ("c") false 0 true Act.ret 0])] [] []) 2 ("c")
      (by decide)
  refine ⟨by decide, ?_, this.2.2.2.2⟩
  rw [this.2.1]
  decide

/-! ### Snapshot discipline of call (C4) -/

theorem applyAct_dead (s : Hooks) (a : Act) : (applyAct s a).dead = s.dead := by
  cases a <;> rfl

theorem runSnapshot_dead (l : List CallbackEntry) (s : Hooks) :
    ((runSnapshot l s).2).dead = s.dead := by
  induction l generalizing s with
  | nil => rfl
  | cons e rest ih =>
    by_cases hr : resolves s.dead e
    · rw [runSnapshot, if_pos hr]
      rw [show (e.eid :: (runSnapshot rest (applyAct s e.act)).1,
            (runSnapshot rest (applyAct s e.act)).2).2
          = (runSnapshot rest (applyAct s e.act)).2 from rfl]
      rw [ih (applyAct s e.act), applyAct_dead]
    · rw [runSnapshot, if_neg hr]
      exact ih s

theorem runSnapshot_fst (l : List CallbackEntry) (s : Hooks) :
    (runSnapshot l s).1 = processTrace s.dead l := by
  induction l generalizing s with
  | nil => rfl
  | cons e rest ih =>
    by_cases hr : resolves s.dead e
    · rw [runSnapshot, if_pos hr, processTrace, if_pos hr]
      rw [show (e.eid :: (runSnapshot rest (applyAct s e.act)).1,
            (runSnapshot rest (applyAct s e.act)).2).1
          = e.eid :: (runSnapshot rest (applyAct s e.act)).1 from rfl]
      rw [ih (applyAct s e.act), applyAct_dead]
    · rw [runSnapshot, if_neg hr, processTrace, if_neg hr]
      exact ih s

theorem lookupHook_register_mono (s : Hooks) (h ch : String) (e : CallbackEntry)
    (i : Nat) (hmem : i ∈ (lookupHook s.hooks ch).map CallbackEntry.eid) :
    i ∈ (lookupHook ((s.register h e).hooks) ch).map CallbackEntry.eid := by
  by_cases hh : ch = h
  · subst hh
    rw [show (s.register ch e).hooks = appendEntry s.hooks ch { e with hook := ch }
        from rfl, lookupHook_appendEntry_self, List.map_append]
    exact List.mem_append_left _ hmem
  · rw [show (s.register h e).hooks = appendEntry s.hooks h { e with hook := h }
        from rfl, lookupHook_appendEntry_ne s.hooks h ch _ hh]
    exact hmem

theorem applyAct_mono (s : Hooks) (a : Act) (ch : String) (i : Nat)
    (hmem : i ∈ (lookupHook s.hooks ch).map CallbackEntry.eid) :
    i ∈ (lookupHook ((applyAct s a).hooks) ch).map CallbackEntry.eid := by
  cases a with
  | regNew ch' j rv => exact lookupHook_register_mono s ch' ch _ i hmem
  | ret => exact hmem
  | raiseErr => exact hmem
  | emitTo ch' => exact hmem

theorem runSnapshot_mono (l : List CallbackEntry) (s : Hooks) (ch : String)
    (i : Nat) (hmem : i ∈ (lookupHook s.hooks ch).map CallbackEntry.eid) :
    i ∈ (lookupHook (((runSnapshot l s).2).hooks) ch).map CallbackEntry.eid := by
  induction l generalizing s with
  | nil => exact hmem
  | cons e rest ih =>
    by_cases hr : resolves s.dead e
    · rw [runSnapshot, if_pos hr]
      exact ih (applyAct s e.act) (applyAct_mono s e.act ch i hmem)
    · rw [runSnapshot, if_neg hr]
      exact ih s hmem

theorem runSnapshot_registers (l : List CallbackEntry) (s : Hooks)
    (e : CallbackEntry) (ch : String) (i rv : Nat)
    (hmem : e ∈ l) (hres : resolves s.dead e = true)
    (hact : e.act = Act.regNew ch i rv) :
    i ∈ (lookupHook (((runSnapshot l s).2).hooks) ch).map CallbackEntry.eid := by
  induction l generalizing s with
  | nil => cases hmem
  | cons x rest ih =>
    rcases List.mem_cons.mp hmem with heq | hmem'
    · subst heq
      rw [runSnapshot, if_pos hres]
      apply runSnapshot_mono
      rw [hact]
      rw [show (applyAct s (Act.regNew ch i rv)).hooks
          = appendEntry s.hooks ch
              { eid := i, hook := ch, weak := false, obj := 0, enabled := true,
                act := Act.ret, retVal := rv } from rfl]
      rw [lookupHook_appendEntry_self, List.map_append]
      exact List.mem_append_right _ (by simp)
    · by_cases hr : resolves s.dead x
      · rw [runSnapshot, if_pos hr]
        exact ih (applyAct s x.act) hmem'
          (by rw [applyAct_dead]; exact hres)
      · rw [runSnapshot, if_neg hr]
        exact ih s hmem' hres

/-- C4: `call` iterates a snapshot of the channel's entry list taken before
any callback is invoked, so the invocation trace is fully determined by the
pre-dispatch state: a callback registered on the same channel during the
dispatch (here by the invoked callback `e`, whose behaviour registers a
fresh entry with identity `i`) is never invoked by that dispatch, even
though the registration itself does land in the post-dispatch registry. -/
theorem call_snapshot_excludes_midregistration (s : Hooks) (h ch : String)
    (e : CallbackEntry) (i rv : Nat)
    (hmem : e ∈ lookupHook s.hooks h)
    (hres : resolves s.dead e = true)
    (hact : e.act = Act.regNew ch i rv)
    (hfresh : i ∉ (lookupHook s.hooks h).map CallbackEntry.eid) :
    (s.callEff h).1 = processTrace s.dead (lookupHook s.hooks h) ∧
    i ∉ (s.callEff h).1 ∧
    i ∈ (lookupHook (((s.callEff h).2).hooks) ch).map CallbackEntry.eid := by
  refine ⟨runSnapshot_fst _ s, ?_, ?_⟩
  · intro hin
    rw [Hooks.callEff, runSnapshot_fst _ s] at hin
    obtain ⟨e', he', heid, _⟩ := mem_processTrace _ _ _ hin
    exact hfresh (List.mem_map.mpr ⟨e', he', heid⟩)
  · exact runSnapshot_registers _ s e ch i rv hmem hres hact

/-- Witness for C4 at a concrete input: the only subscriber of channel `c`
registers a fresh callback with identity 5 on `c` during the dispatch; the
dispatch invokes only entry 1, never entry 5, yet entry 5 is registered
afterwards. -/
theorem call_snapshot_excludes_midregistration_witness :
    ((CallbackEntry.mk 1 ("c") false 0 true (Act.regNew ("c") 5 0) 0 ∈
        lookupHook [(("c"), [CallbackEntry.mk 1 ("c") false 0 true (Act.regNew ("c") 5 0) 0])]
          ("c")) ∧
      (5 ∉ (lookupHook
          [(("c"), [CallbackEntry.mk 1 ("c") false 0 true (Act.regNew ("c") 5 0) 0])]
          ("c")).map CallbackEntry.eid)) ∧
    (((Hooks.mk [(("c"), [CallbackEntry.mk 1 ("c") false 0 true (Act.regNew ("c") 5 0) 0])]
        [] []).callEff ("c")).1 = [1] ∧
      5 ∉ ((Hooks.mk [(("c"), [CallbackEntry.mk 1 ("c") false 0 true (Act.regNew ("c") 5 0) 0])]
        [] []).callEff ("c")).1 ∧
      5 ∈ (lookupHook ((((Hooks.mk
          [(("c"), [CallbackEntry.mk 1 ("c") false 0 true (Act.regNew ("c") 5 0) 0])]
          [] []).callEff ("c")).2).hooks) ("c")).map CallbackEntry.eid) := by
  have := call_snapshot_excludes_midregistration
    (Hooks.mk [(("c"), [CallbackEntry.mk 1 ("c") false 0 true (Act.regNew ("c") 5 0) 0])] [] [])
    ("c") ("c") (CallbackEntry.mk 1 ("c") false 0 true (Act.regNew ("c") 5 0) 0) 5 0
    (by decide) rfl rfl (by decide)
  refine ⟨⟨by decide, by decide⟩, ?_, this.2.1, this.2.2⟩
  rw [this.1]
  decide

/-! ### Exception propagation (C6) -/

theorem processRaise_pre (dead : List Nat) (pre post : List CallbackEntry)
    (bad : CallbackEntry)
    (hpre : ∀ e ∈ pre, e.act ≠ Act.raiseErr)
    (hres : resolves dead bad = true) (hbad : bad.act = Act.raiseErr) :
    processRaise dead (pre ++ bad :: post)
      = (processTrace dead pre ++ [bad.eid], true) := by
  induction pre with
  | nil =>
    simp [processRaise, hres, hbad, processTrace]
  | cons e rest ih =>
    have hne := hpre e (List.mem_cons_self e rest)
    have hrest := ih (fun x hx => hpre x (List.mem_cons_of_mem e hx))
    by_cases hr : resolves dead e
    · cases ha : e.act
      · simp [processRaise, processTrace, hr, ha, hrest]
      · exact absurd ha hne
      · simp [processRaise, processTrace, hr, ha, hrest]
      · simp [processRaise, processTrace, hr, ha, hrest]
    · simp [processRaise, processTrace, hr, hrest]

/-- C6: an exception raised by a subscriber's callback during `call`/
`process` propagates synchronously to the dispatch caller (the raised flag of
the dispatch is true, never swallowed), and the snapshot entries after the
failing subscriber are not invoked in that dispatch: the trace is exactly the
invoked prefix followed by the failing subscriber. -/
theorem callback_exception_propagates (s : Hooks) (h : String)
    (pre post : List CallbackEntry) (bad : CallbackEntry)
    (hsnap : lookupHook s.hooks h = pre ++ bad :: post)
    (hpre : ∀ e ∈ pre, e.act ≠ Act.raiseErr)
    (hres : resolves s.dead bad = true)
    (hbad : bad.act = Act.raiseErr) :
    s.callRaise h = (processTrace s.dead pre ++ [bad.eid], true) := by
  rw [Hooks.callRaise, hsnap]
  exact processRaise_pre s.dead pre post bad hpre hres hbad

/-- Witness for C6 at a concrete input: with three subscribers of which the
second raises, the dispatch raises, invokes subscribers 1 and 2 only, and
subscriber 3 is never invoked. -/
theorem callback_exception_propagates_witness :
    ((lookupHook [(("c"), [CallbackEntry.mk 1 ("c") false 0 true Act.ret 0,
                           CallbackEntry.mk 2 ("c") false 0 true Act.raiseErr 0,
                           CallbackEntry.mk 3 ("c") false 0 true Act.ret 0])] ("c")
        = [CallbackEntry.mk 1 ("c") false 0 true Act.ret 0]
            ++ CallbackEntry.mk 2 ("c") false 0 true Act.raiseErr 0
              :: [CallbackEntry.mk 3 ("c") false 0 true Act.ret 0]) ∧
      (∀ e ∈ [CallbackEntry.mk 1 ("c") false 0 true Act.ret 0],
        e.act ≠ Act.raiseErr)) ∧
    (Hooks.mk [(("c"), [CallbackEntry.mk 1 ("c") false 0 true Act.ret 0,
                        CallbackEntry.mk 2 ("c") false 0 true Act.raiseErr 0,
                        CallbackEntry.mk 3 ("c") false 0 true Act.ret 0])] [] []).callRaise
        ("c") = ([1, 2], true) := by
  have := callback_exception_propagates
    (Hooks.mk [(("c"), [CallbackEntry.mk 1 ("c") false 0 true Act.ret 0,
                        CallbackEntry.mk 2 ("c") false 0 true Act.raiseErr 0,
                        CallbackEntry.mk 3 ("c") false 0 true Act.ret 0])] [] [])
    ("c")
    [CallbackEntry.mk 1 ("c") false 0 true Act.ret 0]
    [CallbackEntry.mk 3 ("c") false 0 true Act.ret 0]
    (CallbackEntry.mk 2 ("c") false 0 true Act.raiseErr 0)
    (by decide) (by decide) rfl rfl
  refine ⟨⟨by decide, by decide⟩, ?_⟩
  rw [this]
  decide

/-! ### Flush failure policy (C10) -/

theorem flushAux_all_ok (dead : List Nat)
    (hk : List (String × List CallbackEntry)) (q : List (String × Nat))
    (hq : ∀ ev ∈ q, (processRaise dead (lookupHook hk ev.1)).2 = false) :
    flushAux dead hk q
      = ((q.map (fun ev => (processRaise dead (lookupHook hk ev.1)).1)).flatten,
          false, []) := by
  induction q with
  | nil => rfl
  | cons ev rest ih =>
    obtain ⟨h, a⟩ := ev
    have hev := hq (h, a) (List.mem_cons_self _ rest)
    have hrest := ih (fun x hx => hq x (List.mem_cons_of_mem _ hx))
    simp [flushAux, hev, hrest]

theorem flushAux_raise (dead : List Nat)
    (hk : List (String × List CallbackEntry))
    (pre post : List (String × Nat)) (hb : String) (ab : Nat)
    (hpre : ∀ ev ∈ pre, (processRaise dead (lookupHook hk ev.1)).2 = false)
    (hbad : (processRaise dead (lookupHook hk hb)).2 = true) :
    flushAux dead hk (pre ++ (hb, ab) :: post)
      = ((pre.map (fun ev => (processRaise dead (lookupHook hk ev.1)).1)).flatten
            ++ (processRaise dead (lookupHook hk hb)).1,
          true, post) := by
  induction pre with
  | nil => simp [flushAux, hbad]
  | cons ev rest ih =>
    obtain ⟨h, a⟩ := ev
    have hev := hpre (h, a) (List.mem_cons_self _ rest)
    have hrest := ih (fun x hx => hpre x (List.mem_cons_of_mem _ hx))
    simp [flushAux, hev, hrest]

/-- C10: if a callback invoked during `flush` raises, the exception
propagates to the caller of `flush`; the queued event whose dispatch failed
has already been popped from the deferred queue, every event queued after it
remains queued, and a subsequent `flush` delivers exactly those remaining
events. -/
theorem flush_error_preserves_later_events (s : Hooks)
    (pre post : List (String × Nat)) (hb : String) (ab : Nat)
    (hq : s.queue = pre ++ (hb, ab) :: post)
    (hpre : ∀ ev ∈ pre, (processRaise s.dead (lookupHook s.hooks ev.1)).2 = false)
    (hbad : (processRaise s.dead (lookupHook s.hooks hb)).2 = true)
    (hpost : ∀ ev ∈ post, (processRaise s.dead (lookupHook s.hooks ev.1)).2 = false) :
    (s.flush).2.1 = true ∧
    ((s.flush).2.2).queue = post ∧
    (((s.flush).2.2).flush).2.1 = false ∧
    ((((s.flush).2.2).flush).2.2).queue = [] ∧
    (((s.flush).2.2).flush).1
      = (post.map (fun ev => (processRaise s.dead (lookupHook s.hooks ev.1)).1)).flatten := by
  have hfa := flushAux_raise s.dead s.hooks pre post hb ab hpre hbad
  have hfa2 := flushAux_all_ok s.dead s.hooks post hpost
  refine ⟨?_, ?_, ?_, ?_, ?_⟩ <;>
    simp only [Hooks.flush, hq, hfa, hfa2]

/-- Witness for C10 at a concrete input: queue `[x, y, x]` where channel `y`
has a raising subscriber; `flush` raises after popping `y`, leaves the last
`x` event queued, and the next `flush` delivers it. -/
theorem flush_error_preserves_later_events_witness :
    (((Hooks.mk [(("x"), [CallbackEntry.mk 1 ("x") false 0 true Act.ret 0]),
                 (("y"), [CallbackEntry.mk 2 ("y") false 0 true Act.raiseErr 0])]
        [(("x"), 0), (("y"), 0), (("x"), 1)] []).queue
        = [(("x"), 0)] ++ (("y"), 0) :: [(("x"), 1)]) ∧
      ((processRaise ([] : List Nat)
          (lookupHook [(("x"), [CallbackEntry.mk 1 ("x") false 0 true Act.ret 0]),
                       (("y"), [CallbackEntry.mk 2 ("y") false 0 true Act.raiseErr 0])]
            ("y"))).2 = true)) ∧
    (((Hooks.mk [(("x"), [CallbackEntry.mk 1 ("x") false 0 true Act.ret 0]),
                 (("y"), [CallbackEntry.mk 2 ("y") false 0 true Act.raiseErr 0])]
        [(("x"), 0), (("y"), 0), (("x"), 1)] []).flush).2.1 = true ∧
      (((Hooks.mk [(("x"), [CallbackEntry.mk 1 ("x") false 0 true Act.ret 0]),
                   (("y"), [CallbackEntry.mk 2 ("y") false 0 true Act.raiseErr 0])]
          [(("x"), 0), (("y"), 0), (("x"), 1)] []).flush).2.2).queue = [(("x"), 1)] ∧
      ((((Hooks.mk [(("x"), [CallbackEntry.mk 1 ("x") false 0 true Act.ret 0]),
                    (("y"), [CallbackEntry.mk 2 ("y") false 0 true Act.raiseErr 0])]
          [(("x"), 0), (("y"), 0), (("x"), 1)] []).flush).2.2).flush).1 = [1]) := by
  have := flush_error_preserves_later_events
    (Hooks.mk [(("x"), [CallbackEntry.mk 1 ("x") false 0 true Act.ret 0]),
               (("y"), [CallbackEntry.mk 2 ("y") false 0 true Act.raiseErr 0])]
      [(("x"), 0), (("y"), 0), (("x"), 1)] [])
    [(("x"), 0)] [(("x"), 1)] ("y") 0
    rfl (by decide) (by decide) (by decide)
  refine ⟨⟨rfl, by decide⟩, this.1, this.2.1, ?_⟩
  rw [this.2.2.2.2]
  decide

/-! ### Reentrant FIFO emit (C3, modelled from the spec) -/

theorem emitChannel_pure (dead : List Nat) (l : List CallbackEntry)
    (h : ∀ e ∈ l, e.act = Act.ret) :
    emitChannel dead l = (processTrace dead l, []) := by
  induction l with
  | nil => rfl
  | cons e rest ih =>
    have he := h e (List.mem_cons_self e rest)
    have hrest := ih (fun x hx => h x (List.mem_cons_of_mem e hx))
    by_cases hr : resolves dead e
    · simp [emitChannel, processTrace, hr, he, hrest]
    · simp [emitChannel, processTrace, hr, hrest]

theorem emitChannel_AtoB (dead : List Nat) (B : String) (l : List CallbackEntry)
    (hres : ∀ e ∈ l, resolves dead e = true)
    (hact : ∀ e ∈ l, e.act = Act.ret ∨ e.act = Act.emitTo B) :
    emitChannel dead l
      = (l.map CallbackEntry.eid,
          List.replicate ((l.filter (fun e => e.act == Act.emitTo B)).length) B) := by
  induction l with
  | nil => rfl
  | cons e rest ih =>
    have he := hres e (List.mem_cons_self e rest)
    have hrest := ih (fun x hx => hres x (List.mem_cons_of_mem e hx))
      (fun x hx => hact x (List.mem_cons_of_mem e hx))
    rcases hact e (List.mem_cons_self e rest) with ha | ha
    · have hf : (e.act == Act.emitTo B) = false := by
        rw [ha]
        rfl
      simp [emitChannel, he, ha, hrest, List.filter_cons, hf]
    · have hf : (e.act == Act.emitTo B) = true := by
        rw [ha]
        simp
      simp [emitChannel, he, ha, hrest, List.filter_cons, hf, List.replicate_succ]

theorem drain_replicate (dead : List Nat)
    (hk : List (String × List CallbackEntry)) (B : String)
    (bs : List CallbackEntry) (k fuel : Nat)
    (hB : lookupHook hk B = bs)
    (hbs : ∀ e ∈ bs, e.act = Act.ret)
    (hfuel : k ≤ fuel) :
    drain dead hk fuel (List.replicate k B)
      = (List.replicate k (processTrace dead bs)).flatten := by
  induction k generalizing fuel with
  | zero => cases fuel <;> rfl
  | succ n ih =>
    cases fuel with
    | zero => omega
    | succ f =>
      rw [List.replicate_succ, drain, hB, emitChannel_pure dead bs hbs]
      rw [show ((processTrace dead bs, ([] : List String)).1) = processTrace dead bs from rfl,
        show ((processTrace dead bs, ([] : List String)).2) = ([] : List String) from rfl]
      rw [List.append_nil, ih f (Nat.le_of_succ_le_succ hfuel)]
      rw [List.replicate_succ, List.flatten_cons]

/-- C3 (modelled from the spec, `emit` being absent from src/): reentrant
FIFO ordering.  All subscribers of channel `A` are live; some of them, on
invocation, make a nested `emit` of channel `B`, which only enqueues `B` on
the pending-emit queue and does not recursively drain; `B`'s subscribers do
not emit further.  The global trace of `emit A` is all of `A`'s subscribers
in order, followed by `B`'s dispatches — so every subscriber of `A` runs to
completion before any subscriber of `B` runs. -/
theorem emit_reentrant_fifo (dead : List Nat)
    (hk : List (String × List CallbackEntry)) (A B : String)
    (bs : List CallbackEntry) (fuel : Nat)
    (hres : ∀ e ∈ lookupHook hk A, resolves dead e = true)
    (hact : ∀ e ∈ lookupHook hk A, e.act = Act.ret ∨ e.act = Act.emitTo B)
    (hB : lookupHook hk B = bs)
    (hbs : ∀ e ∈ bs, e.act = Act.ret)
    (hfuel : ((lookupHook hk A).filter (fun e => e.act == Act.emitTo B)).length + 1 ≤ fuel) :
    emit dead hk A fuel
      = (lookupHook hk A).map CallbackEntry.eid
        ++ (List.replicate
              ((lookupHook hk A).filter (fun e => e.act == Act.emitTo B)).length
              (processTrace dead bs)).flatten := by
  cases fuel with
  | zero => omega
  | succ f =>
    rw [emit, drain, emitChannel_AtoB dead B _ hres hact]
    rw [show ((lookupHook hk A).map CallbackEntry.eid,
          List.replicate ((lookupHook hk A).filter (fun e => e.act == Act.emitTo B)).length B).1
        = (lookupHook hk A).map CallbackEntry.eid from rfl]
    rw [show ((lookupHook hk A).map CallbackEntry.eid,
          List.replicate ((lookupHook hk A).filter (fun e => e.act == Act.emitTo B)).length B).2
        = List.replicate ((lookupHook hk A).filter (fun e => e.act == Act.emitTo B)).length B
        from rfl]
    rw [List.nil_append]
    rw [drain_replicate dead hk B bs _ f hB hbs (Nat.le_of_succ_le_succ hfuel)]

/-- Witness for C3 at a concrete input: channel `A` has one subscriber that
emits `B`; channel `B` has one subscriber.  `emit A` runs A's subscriber to
completion before B's subscriber: the trace is `[1, 2]`. -/
theorem emit_reentrant_fifo_witness :
    ((∀ e ∈ lookupHook
        [(("A"), [CallbackEntry.mk 1 ("A") false 0 true (Act.emitTo ("B")) 0]),
         (("B"), [CallbackEntry.mk 2 ("B") false 0 true Act.ret 0])] ("A"),
        resolves ([] : List Nat) e = true) ∧
      (lookupHook
        [(("A"), [CallbackEntry.mk 1 ("A") false 0 true (Act.emitTo ("B")) 0]),
         (("B"), [CallbackEntry.mk 2 ("B") false 0 true Act.ret 0])] ("B")
        = [CallbackEntry.mk 2 ("B") false 0 true Act.ret 0])) ∧
    emit ([] : List Nat)
      [(("A"), [CallbackEntry.mk 1 ("A") false 0 true (Act.emitTo ("B")) 0]),
       (("B"), [CallbackEntry.mk 2 ("B") false 0 true Act.ret 0])] ("A") 2
      = [1, 2] := by
  have := emit_reentrant_fifo ([] : List Nat)
    [(("A"), [CallbackEntry.mk 1 ("A") false 0 true (Act.emitTo ("B")) 0]),
     (("B"), [CallbackEntry.mk 2 ("B") false 0 true Act.ret 0])]
    ("A") ("B") [CallbackEntry.mk 2 ("B") false 0 true Act.ret 0] 2
    (by decide) (by decide) (by decide) (by decide) (by decide)
  refine ⟨⟨by decide, by decide⟩, ?_⟩
  rw [this]
  decide

end HooksPy
